import Mathlib

/-!
Shallow embedding of the computational core of the What-If Investment
Simulator backend (`src/backend/src/lib/prices.ts`, `src/backend/src/lib/math.ts`,
`src/backend/src/routes/backtest.ts`).

Modelling conventions:
* JS numbers used for money/prices/fees are modelled by `ℚ` (the formulas under
  study are exact rational identities); `Math.pow` with a real exponent (CAGR)
  is modelled over `ℝ` with `Real.rpow`.
* JS strings are Lean `String`s; the JS relational operators on strings are
  the explicit lexicographic comparisons `strLt` / `strLe` below.
* JS `Date` values are modelled by their UTC day number (days since the Unix
  epoch); the constant noon-UTC time-of-day offset used by `toDate` is dropped
  because every use (formatting back to `YYYY-MM-DD`) is invariant under it.
* The upstream `yahooFinance.historical` call is an oracle parameter
  (`Except String (List RawRow)`), and the LRU cache is explicit state,
  modelled as an association list (TTL/capacity eviction abstracted away; a
  present entry models an unexpired one).
* Fallible code returns `Except`; the JS `NaN` produced by `Date.parse` on an
  out-of-range date is modelled by `Option`.
-/

namespace WhatIf

/-- `PricePoint` from `prices.ts`: `{ date: string; adj_close: number }`. -/
structure PricePoint where
  date : String
  adj_close : ℚ
deriving DecidableEq, Repr

/-- Error taxonomy of the series provider and route, as named by the spec.
`invalidDate` is the `Invalid ISO date` 400 thrown by `toDate`;
`providerUnavailable` the 502 `Price provider error`; `noData` the 422
`No data for ticker/date range`; `insufficientDataAfterSnap` the 422
`Insufficient data after trading-day snap`. -/
inductive PriceError where
  | invalidDate (s : String)
  | providerUnavailable
  | noData
  | insufficientDataAfterSnap
deriving DecidableEq, Repr

-- --- Calendar arithmetic (JS `Date.UTC` / `getUTC*` semantics) --------------

/-- Day number since 1970-01-01 of the civil date `(y, m, d)`, for `1 ≤ m ≤ 12`
(Hinnant's `days_from_civil`, with floor division so all years work). -/
def daysFromCivil (y m d : Int) : Int :=
  let y' := if m ≤ 2 then y - 1 else y
  let era := y'.fdiv 400
  let yoe := y' - era * 400
  let mp := if m ≤ 2 then m + 9 else m - 3
  let doy := (153 * mp + 2).fdiv 5 + d - 1
  let doe := yoe * 365 + yoe.fdiv 4 - yoe.fdiv 100 + doy
  era * 146097 + doe - 719468

/-- Civil date `(y, m, d)` of a day number (Hinnant's `civil_from_days`);
inverse of `daysFromCivil`.  Models `getUTCFullYear/Month/Date`. -/
def civilFromDays (z0 : Int) : Int × Int × Int :=
  let z := z0 + 719468
  let era := z.fdiv 146097
  let doe := z - era * 146097
  let yoe := (doe - doe.fdiv 1460 + doe.fdiv 36524 - doe.fdiv 146096).fdiv 365
  let y := yoe + era * 400
  let doy := doe - (365 * yoe + yoe.fdiv 4 - yoe.fdiv 100)
  let mp := (5 * doy + 2).fdiv 153
  let d := doy - (153 * mp + 2).fdiv 5 + 1
  let m := if mp < 10 then mp + 3 else mp - 9
  (if m ≤ 2 then y + 1 else y, m, d)

/-- `Date.UTC(year, monthIndex, day)` as a day number: ECMAScript `MakeDay`
normalizes the 0-based month index into the year with floor division/modulo,
then offsets by `day - 1` calendar days (so out-of-range months and days roll
over instead of failing). -/
def dateUTCday (year monthIndex day : Int) : Int :=
  daysFromCivil (year + monthIndex.fdiv 12) (monthIndex.fmod 12 + 1) day

-- --- Strict ISO-shape parsing (the regex /^(\d{4})-(\d{2})-(\d{2})$/) -------

/-- Numeric value of a decimal digit character. -/
def digitVal (c : Char) : Int := (c.toNat : Int) - 48

/-- Match the regex `^(\d{4})-(\d{2})-(\d{2})$` and return the three numeric
groups `(year, month, day)`; `none` when the shape does not match.  Note the
regex constrains only the digit shape, not the numeric ranges. -/
def parseIso (s : String) : Option (Int × Int × Int) :=
  match s.data with
  | [y1, y2, y3, y4, h1, m1, m2, h2, d1, d2] =>
    if (y1.isDigit && y2.isDigit && y3.isDigit && y4.isDigit &&
        h1 = Char.ofNat 45 && m1.isDigit && m2.isDigit &&
        h2 = Char.ofNat 45 && d1.isDigit && d2.isDigit : Bool) then
      some (1000 * digitVal y1 + 100 * digitVal y2 + 10 * digitVal y3 + digitVal y4,
            10 * digitVal m1 + digitVal m2,
            10 * digitVal d1 + digitVal d2)
    else none
  | _ => none

/-- Whether a string matches the ISO digit shape `\d{4}-\d{2}-\d{2}`
(the zod schema check on `start_date` / `end_date`). -/
def isIsoShape (s : String) : Bool := (parseIso s).isSome

/-- `toDate` from `prices.ts`: strictly parse the shape `YYYY-MM-DD`, throw
(`invalidDate`, the 400 `Invalid ISO date`) if the regex fails, else build
`Date.UTC(year, month - 1, day)` (noon offset dropped, see module docstring). -/
def toDate (s : String) : Except PriceError Int :=
  match parseIso s with
  | none => .error (.invalidDate s)
  | some (y, m, d) => .ok (dateUTCday y (m - 1) d)

/-- Two-digit zero padding, `String(n).padStart(2, '0')` for `0 ≤ n ≤ 99`. -/
def pad2 (n : Int) : String :=
  if n < 10 then "0" ++ toString n.toNat else toString n.toNat

/-- `fmt` from `prices.ts`: format a `Date` (day number) back to `YYYY-MM-DD`
from its UTC civil fields (the year is not padded in the source either). -/
def fmt (day : Int) : String :=
  let c := civilFromDays day
  toString c.1 ++ "-" ++ pad2 c.2.1 ++ "-" ++ pad2 c.2.2

/-- Whether year `y` is a leap year (Gregorian rule). -/
def isLeap (y : Int) : Bool := (y.fmod 4 = 0 && y.fmod 100 ≠ 0) || y.fmod 400 = 0

/-- Number of days in month `m` of year `y` (for `1 ≤ m ≤ 12`). -/
def daysInMonth (y m : Int) : Int :=
  if m = 2 then (if isLeap y then 29 else 28)
  else if m = 4 ∨ m = 6 ∨ m = 9 ∨ m = 11 then 30
  else 31

/-- `Date.parse` on a date-only ISO string, in day numbers: the ECMAScript
date-time string format requires in-range month and day, so an out-of-range
component yields `NaN`, modelled as `none` (unlike `Date.UTC`, which rolls
over).  A valid string parses to midnight UTC of that civil date. -/
def dateParse (s : String) : Option Int :=
  match parseIso s with
  | none => none
  | some (y, m, d) =>
    if 1 ≤ m ∧ m ≤ 12 ∧ 1 ≤ d ∧ d ≤ daysInMonth y m then some (daysFromCivil y m d)
    else none

-- --- JS string comparison ---------------------------------------------------

/-- Lexicographic `<` on lists of characters comparing code points: the
semantics of the JS `<` operator on strings (for the ASCII date and key
strings of this codebase, UTF-16 code units coincide with code points). -/
def charListLt : List Char → List Char → Bool
  | _, [] => false
  | [], _ :: _ => true
  | a :: as, b :: bs => decide (a < b) || (decide (a = b) && charListLt as bs)

/-- The JS `<` operator on strings. -/
def strLt (a b : String) : Bool := charListLt a.data b.data

/-- The JS `<=` operator on strings; for strings (unlike numbers) JS relational
operators form a total lexicographic order, so `a <= b` is `!(b < a)`. -/
def strLe (a b : String) : Bool := !strLt b a

-- --- Index search (the two snap loops in prices.ts) -------------------------

/-- Body of the upward loop of `findIdxAtOrAfter`, scanning the remaining list
with `i` the index of its head: `if (row.date >= target) return i`. -/
def findIdxAtOrAfterGo (target : String) : List PricePoint → Nat → Int
  | [], _ => -1
  | row :: rest, i => if strLe target row.date then (i : Int) else findIdxAtOrAfterGo target rest (i + 1)

/-- `findIdxAtOrAfter` from `prices.ts`: first index whose date ≥ target,
`-1` if none (loop `for (let i = 0; i < series.length; i++)`). -/
def findIdxAtOrAfter (series : List PricePoint) (target : String) : Int :=
  findIdxAtOrAfterGo target series 0

/-- Body of the downward loop of `findIdxAtOrBefore`: argument `n` is one more
than the next index to inspect (`n = 0` means the loop has run out, return -1);
the `!row` guard of the source corresponds to the `none` case, which cannot
fire for in-range indices. -/
def findIdxAtOrBeforeGo (series : List PricePoint) (target : String) : Nat → Int
  | 0 => -1
  | n + 1 =>
    match series[n]? with
    | some row => if strLe row.date target then (n : Int) else findIdxAtOrBeforeGo series target n
    | none => findIdxAtOrBeforeGo series target n

/-- `findIdxAtOrBefore` from `prices.ts`: last index whose date ≤ target,
`-1` if none (loop `for (let i = series.length - 1; i >= 0; i--)`). -/
def findIdxAtOrBefore (series : List PricePoint) (target : String) : Int :=
  findIdxAtOrBeforeGo series target series.length

-- --- Series provider --------------------------------------------------------

/-- A raw row from the upstream provider, treated as untrusted: `date` and
`adjClose` may be missing (`r.adjClose != null && r.date`).  The upstream
date is modelled by its already-formatted `YYYY-MM-DD` string (the source
applies `fmt(new Date(r.date))` during normalization). -/
structure RawRow where
  date : Option String
  adjClose : Option ℚ
deriving DecidableEq, Repr

/-- The ascending-by-date ordering induced by the sort comparator
`(a, b) => a.date < b.date ? -1 : a.date > b.date ? 1 : 0`. -/
def dateLe (a b : PricePoint) : Prop := strLe a.date b.date = true

instance : DecidableRel dateLe := fun _ _ => instDecidableEqBool _ _

/-- Normalization step of `getAdjustedSeries`: drop rows missing a date or an
adjusted close, project to `PricePoint`, and sort ascending by date.
`Array.prototype.sort` with the comparator above is a stable sort, whose
output is exactly the (unique) stable ascending reordering; `insertionSort`
is stable, so it is a faithful model. -/
def normalizeRows (rows : List RawRow) : List PricePoint :=
  (rows.filterMap fun r =>
    match r.date, r.adjClose with
    | some d, some c => some ⟨d, c⟩
    | _, _ => none).insertionSort dateLe

/-- The in-memory cache, `(key, series)` association list; `cache.get` is
`List.lookup`, `cache.set` conses the new entry (lookup sees the newest).
TTL and LRU capacity eviction are abstracted away: an entry present in the
list models an unexpired, unevicted one. -/
abbrev Cache := List (String × List PricePoint)

/-- The cache key `` `prices:${ticker}:${startISO}:${endISO}` ``. -/
def cacheKey (ticker startISO endISO : String) : String :=
  "prices:" ++ ticker ++ ":" ++ startISO ++ ":" ++ endISO

/-- The trading-day snap block of `getAdjustedSeries` (prices.ts lines
109–123): resolve the snapped start/end indices, fail with
`insufficientDataAfterSnap` when `startIdx === -1 || endIdx === -1 ||
endIdx <= startIdx`, else return `series.slice(startIdx, endIdx + 1)`
(drop `startIdx`, take `endIdx + 1 - startIdx`; both indices are
non-negative in this branch, so `toNat` is exact). -/
def snapSlice (series : List PricePoint) (startStr endStr : String) :
    Except PriceError (List PricePoint) :=
  let startIdx := findIdxAtOrAfter series startStr
  let endIdx := findIdxAtOrBefore series endStr
  if startIdx = -1 ∨ endIdx = -1 ∨ endIdx ≤ startIdx then
    .error .insufficientDataAfterSnap
  else
    .ok ((series.drop startIdx.toNat).take (endIdx.toNat + 1 - startIdx.toNat))

/-- `getAdjustedSeries` from `prices.ts`.  `isStub` is `env.isStub`;
`fetched` is the outcome of the (buffered-window) upstream call, consumed only
on the fetch path.  Returns the result, the cache after the call, and whether
the upstream source was consulted.  The buffered fetch window (10 days before
start, 2 after end) lives inside the oracle and does not appear here. -/
def getAdjustedSeries (isStub : Bool) (cache : Cache)
    (fetched : Except String (List RawRow))
    (ticker startISO endISO : String) :
    Except PriceError (List PricePoint) × Cache × Bool :=
  if isStub then
    (.ok [⟨startISO, 10⟩, ⟨endISO, 15⟩], cache, false)
  else
    let key := cacheKey ticker startISO endISO
    match cache.lookup key with
    | some hit => (.ok hit, cache, false)
    | none =>
      match toDate startISO with
      | .error e => (.error e, cache, false)
      | .ok startD =>
        match toDate endISO with
        | .error e => (.error e, cache, false)
        | .ok endD =>
          match fetched with
          | .error _ => (.error .providerUnavailable, cache, true)
          | .ok rows =>
            let series := normalizeRows rows
            if series.length = 0 then (.error .noData, cache, true)
            else
              match snapSlice series (fmt startD) (fmt endD) with
              | .error err => (.error err, cache, true)
              | .ok window => (.ok window, (key, window) :: cache, true)

-- --- Metrics (math.ts) ------------------------------------------------------

/-- `cagr` from `math.ts`: `Math.pow(end / start, 1 / max(days / 365.25, 1e-9)) - 1`,
with `Math.pow` modelled by `Real.rpow`. -/
noncomputable def cagr (startv endv : ℚ) (days : Int) : ℝ :=
  let years : ℝ := (days : ℝ) / 365.25
  let safeYears : ℝ := max years 1e-9
  ((endv : ℝ) / (startv : ℝ)) ^ ((1 : ℝ) / safeYears) - 1

/-- `totalReturnPct` from `math.ts`: `(end - start) / start`. -/
def totalReturnPct (startv endv : ℚ) : ℚ := (endv - startv) / startv

-- --- Backtest route (routes/backtest.ts) ------------------------------------

/-- The parsed request body.  `cadence` is omitted: the zod schema admits only
the single literal `lump_sum` (with that default), and the handler never reads
it.  `fees_bps` carries its zod default 0 when absent. -/
structure Body where
  ticker : String
  amount : ℚ
  start_date : String
  end_date : String
  fees_bps : ℚ
deriving DecidableEq, Repr

/-- The zod `Body` schema: non-empty ticker, positive amount, both dates
matching `\d{4}-\d{2}-\d{2}`, `fees_bps ∈ [0, 10000]`, and the refinement
`start_date <= end_date` (JS lexicographic string comparison). -/
def bodyValid (p : Body) : Bool :=
  decide (1 ≤ p.ticker.length) && decide (0 < p.amount) &&
  isIsoShape p.start_date && isIsoShape p.end_date &&
  decide (0 ≤ p.fees_bps) && decide (p.fees_bps ≤ 10000) &&
  strLe p.start_date p.end_date

/-- Route-level error taxonomy: `validationError` is zod's 400;
`price e` propagates a thrown provider error; `insufficientData` is the 422
`Insufficient data` length guard (its unreachable twin `Insufficient date
data` is folded into the same `head?`/`getLast?` match, see
`backtestRoute`). -/
inductive RouteError where
  | validationError
  | price (e : PriceError)
  | insufficientData
deriving DecidableEq, Repr

/-- The JSON success payload of `POST /api/v1/backtest`, minus the
real-valued `cagr` field, which is split off into `backtestCagr` so that the
route stays executable (see module docstring).  `elapsed_days` is the internal
`days` value the route feeds to `cagr`; `none` models the `NaN` produced when
`Date.parse` rejects an (out-of-range) effective date. -/
structure BacktestResp where
  series : List PricePoint
  shares : ℚ
  final_value : ℚ
  total_return_pct : ℚ
  elapsed_days : Option Int
  fees_bps : ℚ
  effective_start_date : String
  effective_end_date : String
deriving DecidableEq, Repr

/-- `days` from the route handler:
`Math.max(1, Math.round((Date.parse(effectiveEnd) - Date.parse(effectiveStart)) / 86400000))`.
Both parses yield exact midnight-UTC timestamps, so the quotient is an exact
integer and `Math.round` is the identity; `NaN` on either side is `none`. -/
def routeDays (effStart effEnd : String) : Option Int :=
  match dateParse effStart, dateParse effEnd with
  | some a, some b => some (max 1 (b - a))
  | _, _ => none

/-- The handler of `POST /api/v1/backtest` (`routes/backtest.ts`), with the
stub flag, cache state, and upstream-fetch outcome made explicit like in
`getAdjustedSeries`.  The source guards `series[0]?.adj_close === undefined`,
`series[len-1]?.adj_close === undefined` and the falsy-date check collapse
into the single `head?`/`getLast?` match: for a `List PricePoint` an element
present always carries both fields. -/
def backtestRoute (isStub : Bool) (cache : Cache)
    (fetched : Except String (List RawRow)) (p : Body) :
    Except RouteError BacktestResp × Cache :=
  if bodyValid p then
    match getAdjustedSeries isStub cache fetched p.ticker p.start_date p.end_date with
    | (.error e, c, _) => (.error (.price e), c)
    | (.ok series, c, _) =>
      if series.length < 2 then (.error .insufficientData, c)
      else
        match series.head?, series.getLast? with
        | some first, some last =>
          let feeMultiplier := 1 - p.fees_bps / 10000
          let shares := p.amount / first.adj_close * feeMultiplier
          let final_value := shares * last.adj_close
          (.ok { series := series
                 shares := shares
                 final_value := final_value
                 total_return_pct := totalReturnPct p.amount final_value
                 elapsed_days := routeDays first.date last.date
                 fees_bps := p.fees_bps
                 effective_start_date := first.date
                 effective_end_date := last.date }, c)
        | _, _ => (.error .insufficientData, c)
  else (.error .validationError, cache)

/-- The `cagr` field of the JSON response: `cagr(p.amount, final_value, days)`,
`none` when `days` is `NaN` (see `BacktestResp.elapsed_days`). -/
noncomputable def backtestCagr (p : Body) (resp : BacktestResp) : Option ℝ :=
  resp.elapsed_days.map fun d => cagr p.amount resp.final_value d

-- ============================================================================
-- Theorems
-- ============================================================================

-- --- The lexicographic string comparison is a total order -------------------

theorem charListLt_irrefl : ∀ l : List Char, charListLt l l = false
  | [] => rfl
  | a :: as => by simp [charListLt, charListLt_irrefl as]

theorem charListLt_asymm :
    ∀ {a b : List Char}, charListLt a b = true → charListLt b a = false
  | [], [], h => by simp [charListLt] at h
  | [], _ :: _, _ => rfl
  | _ :: _, [], h => by simp [charListLt] at h
  | a :: as, b :: bs, h => by
    simp only [charListLt, Bool.or_eq_true, Bool.and_eq_true, decide_eq_true_eq] at h ⊢
    rcases h with h | ⟨rfl, h⟩
    · simp [not_lt_of_lt h, (ne_of_lt h).symm]
    · simp [lt_irrefl, charListLt_asymm h]

theorem charListLt_trans :
    ∀ {a b c : List Char}, charListLt a b = true → charListLt b c = true →
      charListLt a c = true
  | _, [], _, h, _ => by simp [charListLt] at h
  | _, _, [], _, h => by simp [charListLt] at h
  | [], _ :: _, _ :: _, _, _ => rfl
  | a :: as, b :: bs, c :: cs, h₁, h₂ => by
    simp only [charListLt, Bool.or_eq_true, Bool.and_eq_true, decide_eq_true_eq] at h₁ h₂ ⊢
    rcases h₁ with h₁ | ⟨rfl, h₁⟩ <;> rcases h₂ with h₂ | ⟨rfl, h₂⟩
    · exact Or.inl (lt_trans h₁ h₂)
    · exact Or.inl h₁
    · exact Or.inl h₂
    · exact Or.inr ⟨rfl, charListLt_trans h₁ h₂⟩

theorem charListLt_eq_of_both_false :
    ∀ {a b : List Char}, charListLt a b = false → charListLt b a = false → a = b
  | [], [], _, _ => rfl
  | [], _ :: _, h, _ => by simp [charListLt] at h
  | _ :: _, [], _, h => by simp [charListLt] at h
  | a :: as, b :: bs, h₁, h₂ => by
    simp only [charListLt, Bool.or_eq_false_iff, Bool.and_eq_false_iff,
      decide_eq_false_iff_not] at h₁ h₂
    obtain ⟨hab, h₁'⟩ := h₁
    obtain ⟨hba, h₂'⟩ := h₂
    have heq : a = b := le_antisymm (not_lt.mp hba) (not_lt.mp hab)
    subst heq
    rcases h₁' with h | h₁'
    · exact absurd rfl h
    · rcases h₂' with h | h₂'
      · exact absurd rfl h
      · exact congrArg (a :: ·) (charListLt_eq_of_both_false h₁' h₂')

theorem strLe_refl (a : String) : strLe a a = true := by
  simp [strLe, strLt, charListLt_irrefl]

theorem strLe_total (a b : String) : strLe a b = true ∨ strLe b a = true := by
  rcases Bool.eq_false_or_eq_true (charListLt a.data b.data) with h | h
  · exact Or.inl (by simp [strLe, strLt, charListLt_asymm h])
  · exact Or.inr (by simp [strLe, strLt, h])

theorem strLe_antisymm {a b : String} (h₁ : strLe a b = true)
    (h₂ : strLe b a = true) : a = b := by
  simp only [strLe, strLt, Bool.not_eq_true', Bool.not_eq_true] at h₁ h₂
  have h : a.data = b.data := charListLt_eq_of_both_false h₂ h₁
  cases a; cases b; exact congrArg String.mk h

theorem strLe_trans {a b c : String} (h₁ : strLe a b = true)
    (h₂ : strLe b c = true) : strLe a c = true := by
  simp only [strLe, Bool.not_eq_true', strLt] at h₁ h₂ ⊢
  by_contra hca
  rw [Bool.not_eq_false] at hca
  rcases Bool.eq_false_or_eq_true (charListLt a.data b.data) with hab | hab
  · have h3 := charListLt_trans hca hab
    exact absurd h₂ (by simp [h3])
  · have hd : a.data = b.data := charListLt_eq_of_both_false hab h₁
    rw [hd] at hca
    exact absurd h₂ (by simp [hca])

theorem strLt_of_strLe_of_ne {a b : String} (h : strLe a b = true)
    (hne : a ≠ b) : strLt a b = true := by
  rcases Bool.eq_false_or_eq_true (strLt a b) with ht | hf
  · exact ht
  · have hba : strLe b a = true := by simp [strLe, hf]
    exact absurd (strLe_antisymm h hba) hne

-- --- Characterization of the two snap loops ---------------------------------

/-- The upward scan either returns `-1` with no date ≥ target in the remaining
list, or the first (smallest-offset) index whose date is ≥ the target. -/
theorem findIdxAtOrAfterGo_spec (target : String) :
    ∀ (l : List PricePoint) (i : Nat),
      (findIdxAtOrAfterGo target l i = -1 ∧ ∀ p ∈ l, strLe target p.date = false)
    ∨ ∃ k : Nat, findIdxAtOrAfterGo target l i = ((i + k : Nat) : Int)
        ∧ (∃ p, l[k]? = some p ∧ strLe target p.date = true)
        ∧ ∀ m p, m < k → l[m]? = some p → strLe target p.date = false
  | [], i => Or.inl ⟨rfl, by simp⟩
  | row :: rest, i => by
    rcases Bool.eq_false_or_eq_true (strLe target row.date) with hrow | hrow
    · exact Or.inr ⟨0, by simp [findIdxAtOrAfterGo, hrow], ⟨row, by simp, hrow⟩,
        fun m p hm _ => absurd hm (Nat.not_lt_zero m)⟩
    · rcases findIdxAtOrAfterGo_spec target rest (i + 1) with ⟨hgo, hall⟩ | ⟨k, hgo, hk, hmin⟩
      · refine Or.inl ⟨?_, ?_⟩
        · simpa [findIdxAtOrAfterGo, hrow] using hgo
        · intro p hp
          rcases List.mem_cons.mp hp with rfl | hp
          · exact hrow
          · exact hall p hp
      · refine Or.inr ⟨k + 1, ?_, ?_, ?_⟩
        · have harith : i + 1 + k = i + (k + 1) := by omega
          simpa [findIdxAtOrAfterGo, hrow, harith] using hgo
        · simpa using hk
        · intro m p hm hp
          cases m with
          | zero =>
            have hrp : row = p := by simpa using hp
            exact hrp ▸ hrow
          | succ m => exact hmin m p (by omega) (by simpa using hp)

/-- The downward scan from exclusive bound `n` either returns `-1` with no
date ≤ target below `n`, or the last (largest) index `< n` whose date is ≤
the target. -/
theorem findIdxAtOrBeforeGo_spec (l : List PricePoint) (target : String) :
    ∀ n : Nat,
      (findIdxAtOrBeforeGo l target n = -1 ∧
        ∀ m p, m < n → l[m]? = some p → strLe p.date target = false)
    ∨ ∃ k : Nat, k < n ∧ findIdxAtOrBeforeGo l target n = (k : Int)
        ∧ (∃ p, l[k]? = some p ∧ strLe p.date target = true)
        ∧ ∀ m p, k < m → m < n → l[m]? = some p → strLe p.date target = false
  | 0 => Or.inl ⟨rfl, fun m p hm _ => absurd hm (Nat.not_lt_zero m)⟩
  | n + 1 => by
    match hrow : l[n]? with
    | some row =>
      rcases Bool.eq_false_or_eq_true (strLe row.date target) with hle | hle
      · exact Or.inr ⟨n, Nat.lt_succ_self n,
          by simp [findIdxAtOrBeforeGo, hrow, hle], ⟨row, hrow, hle⟩,
          fun m p hnm hm _ => absurd (lt_of_lt_of_le hnm (Nat.lt_succ_iff.mp hm)) (lt_irrefl n)⟩
      · rcases findIdxAtOrBeforeGo_spec l target n with ⟨hgo, hall⟩ | ⟨k, hkn, hgo, hk, hmax⟩
        · refine Or.inl ⟨by simp [findIdxAtOrBeforeGo, hrow, hle, hgo], ?_⟩
          intro m p hm hp
          rcases Nat.lt_succ_iff_lt_or_eq.mp hm with hm | rfl
          · exact hall m p hm hp
          · have hrp : row = p := by rw [hp] at hrow; exact (Option.some_inj.mp hrow).symm
            exact hrp ▸ hle
        · refine Or.inr ⟨k, by omega, by simp [findIdxAtOrBeforeGo, hrow, hle, hgo], hk, ?_⟩
          intro m p hkm hm hp
          rcases Nat.lt_succ_iff_lt_or_eq.mp hm with hm | rfl
          · exact hmax m p hkm hm hp
          · have hrp : row = p := by rw [hp] at hrow; exact (Option.some_inj.mp hrow).symm
            exact hrp ▸ hle
    | none =>
      rcases findIdxAtOrBeforeGo_spec l target n with ⟨hgo, hall⟩ | ⟨k, hkn, hgo, hk, hmax⟩
      · refine Or.inl ⟨by simp [findIdxAtOrBeforeGo, hrow, hgo], ?_⟩
        intro m p hm hp
        rcases Nat.lt_succ_iff_lt_or_eq.mp hm with hm | rfl
        · exact hall m p hm hp
        · rw [hp] at hrow; exact absurd hrow (by simp)
      · refine Or.inr ⟨k, by omega, by simp [findIdxAtOrBeforeGo, hrow, hgo], hk, ?_⟩
        intro m p hkm hm hp
        rcases Nat.lt_succ_iff_lt_or_eq.mp hm with hm | rfl
        · exact hmax m p hkm hm hp
        · rw [hp] at hrow; exact absurd hrow (by simp)

/-- `findIdxAtOrAfter` characterized: `-1` exactly when no date ≥ target,
else the smallest index whose date is ≥ the target. -/
theorem findIdxAtOrAfter_spec (l : List PricePoint) (target : String) :
    (findIdxAtOrAfter l target = -1 ∧ ∀ p ∈ l, strLe target p.date = false)
  ∨ ∃ k : Nat, findIdxAtOrAfter l target = (k : Int)
      ∧ (∃ p, l[k]? = some p ∧ strLe target p.date = true)
      ∧ ∀ m p, m < k → l[m]? = some p → strLe target p.date = false := by
  have h := findIdxAtOrAfterGo_spec target l 0
  simpa [findIdxAtOrAfter] using h

/-- `findIdxAtOrBefore` characterized: `-1` exactly when no date ≤ target,
else the largest index whose date is ≤ the target. -/
theorem findIdxAtOrBefore_spec (l : List PricePoint) (target : String) :
    (findIdxAtOrBefore l target = -1 ∧ ∀ p ∈ l, strLe p.date target = false)
  ∨ ∃ k : Nat, k < l.length ∧ findIdxAtOrBefore l target = (k : Int)
      ∧ (∃ p, l[k]? = some p ∧ strLe p.date target = true)
      ∧ ∀ m p, k < m → l[m]? = some p → strLe p.date target = false := by
  rcases findIdxAtOrBeforeGo_spec l target l.length with ⟨hgo, hall⟩ | ⟨k, hkn, hgo, hk, hmax⟩
  · refine Or.inl ⟨hgo, ?_⟩
    intro p hp
    obtain ⟨m, hm⟩ := List.mem_iff_getElem?.mp hp
    exact hall m p (List.getElem?_eq_some_iff.mp hm).1 hm
  · exact Or.inr ⟨k, hkn, hgo, hk, fun m p hkm hp =>
      hmax m p hkm (List.getElem?_eq_some_iff.mp hp).1 hp⟩

-- --- snapSlice and the fetch path of getAdjustedSeries ----------------------

/-- `snapSlice` fails (necessarily with `insufficientDataAfterSnap`) exactly
under the source's guard `startIdx === -1 || endIdx === -1 || endIdx <= startIdx`. -/
theorem snapSlice_error_iff (ser : List PricePoint) (s e : String) :
    snapSlice ser s e = .error .insufficientDataAfterSnap ↔
      (findIdxAtOrAfter ser s = -1 ∨ findIdxAtOrBefore ser e = -1 ∨
        findIdxAtOrBefore ser e ≤ findIdxAtOrAfter ser s) := by
  simp only [snapSlice]
  split
  · simp_all
  · simp_all

/-- A successful `snapSlice` is the inclusive slice between two genuine
(non-negative) indices with the start index strictly below the end index. -/
theorem snapSlice_ok {ser : List PricePoint} {s e : String} {out : List PricePoint}
    (h : snapSlice ser s e = .ok out) :
    ∃ i j : Nat, findIdxAtOrAfter ser s = (i : Int) ∧
      findIdxAtOrBefore ser e = (j : Int) ∧ i < j ∧ j < ser.length ∧
      out = (ser.drop i).take (j + 1 - i) := by
  simp only [snapSlice] at h
  split at h
  · exact absurd h (by simp)
  · rename_i hcond
    push_neg at hcond
    obtain ⟨hs1, he1, hlt⟩ := hcond
    rcases findIdxAtOrAfter_spec ser s with ⟨hs, _⟩ | ⟨i, hs, _, _⟩
    · exact absurd hs hs1
    · rcases findIdxAtOrBefore_spec ser e with ⟨he, _⟩ | ⟨j, hjl, he, _, _⟩
      · exact absurd he he1
      · refine ⟨i, j, hs, he, ?_, hjl, ?_⟩
        · rw [hs, he] at hlt
          exact_mod_cast hlt
        · rw [hs, he] at h
          simpa using h.symm

/-- On a cache miss with parseable dates and a successful fetch whose
normalization is non-empty, `getAdjustedSeries` is the snap-slice of the
normalized series against the formatted parsed dates, caching on success. -/
theorem getAdjustedSeries_fetch_path (cache : Cache) (rows : List RawRow)
    (ticker startISO endISO : String) (sd ed : Int)
    (hmiss : cache.lookup (cacheKey ticker startISO endISO) = none)
    (hsd : toDate startISO = .ok sd) (hed : toDate endISO = .ok ed)
    (hne : normalizeRows rows ≠ []) :
    getAdjustedSeries false cache (.ok rows) ticker startISO endISO =
      match snapSlice (normalizeRows rows) (fmt sd) (fmt ed) with
      | .error err => (.error err, cache, true)
      | .ok window =>
          (.ok window, (cacheKey ticker startISO endISO, window) :: cache, true) := by
  simp only [getAdjustedSeries, Bool.false_eq_true, if_false, hmiss, hsd, hed]
  rw [if_neg (by simpa [List.length_eq_zero] using hne)]

-- --- Sortedness of normalization --------------------------------------------

/-- The normalized series is ascending by date (weakly: duplicate upstream
dates would remain adjacent duplicates). -/
theorem normalizeRows_sorted (rows : List RawRow) :
    (normalizeRows rows).Pairwise dateLe := by
  haveI : IsTotal PricePoint dateLe := ⟨fun a b => strLe_total a.date b.date⟩
  haveI : IsTrans PricePoint dateLe := ⟨fun _ _ _ hab hbc => strLe_trans hab hbc⟩
  exact List.sorted_insertionSort dateLe _

/-- With pairwise-distinct dates the normalized series is strictly ascending. -/
theorem normalizeRows_strict (rows : List RawRow)
    (hnd : ((normalizeRows rows).map fun p => p.date).Nodup) :
    (normalizeRows rows).Pairwise fun a b => strLt a.date b.date = true := by
  have hs := normalizeRows_sorted rows
  have hnd' : (normalizeRows rows).Pairwise fun a b => a.date ≠ b.date :=
    List.pairwise_map.mp hnd
  exact (hs.and hnd').imp fun hab => strLt_of_strLe_of_ne hab.1 hab.2

/-- A pairwise-related list relates its head to its last element (reflexivity
covers the singleton case). -/
theorem pairwise_head_getLast {R : PricePoint → PricePoint → Prop}
    (hrefl : ∀ x, R x x) :
    ∀ (l : List PricePoint), l.Pairwise R → ∀ {a b},
      l.head? = some a → l.getLast? = some b → R a b
  | [], _, _, _, ha, _ => by simp at ha
  | [x], _, _, _, ha, hb => by
    have h1 : _ = x := Option.some_inj.mp ha.symm
    have h2 : _ = x := Option.some_inj.mp hb.symm
    rw [← h1] at h2
    exact h2 ▸ hrefl _
  | x :: y :: xs, hp, a, b, ha, hb => by
    have hax : a = x := (Option.some_inj.mp ha.symm)
    have hb' : (y :: xs).getLast? = some b := by simpa using hb
    have hbmem : b ∈ y :: xs := List.mem_of_mem_getLast? hb'
    exact hax ▸ (List.pairwise_cons.mp hp).1 b hbmem

/-- `findIdxAtOrAfter` returns `-1` iff no date is ≥ the target. -/
theorem findIdxAtOrAfter_eq_neg1_iff (l : List PricePoint) (t : String) :
    findIdxAtOrAfter l t = -1 ↔ ∀ p ∈ l, strLe t p.date = false := by
  constructor
  · intro h
    rcases findIdxAtOrAfter_spec l t with ⟨-, hall⟩ | ⟨k, hk, -, -⟩
    · exact hall
    · rw [h] at hk; omega
  · intro hall
    rcases findIdxAtOrAfter_spec l t with ⟨h, -⟩ | ⟨k, -, ⟨p, hp, htrue⟩, -⟩
    · exact h
    · exact absurd (hall p (List.getElem?_mem hp)) (by simp [htrue])

/-- `findIdxAtOrBefore` returns `-1` iff no date is ≤ the target. -/
theorem findIdxAtOrBefore_eq_neg1_iff (l : List PricePoint) (t : String) :
    findIdxAtOrBefore l t = -1 ↔ ∀ p ∈ l, strLe p.date t = false := by
  constructor
  · intro h
    rcases findIdxAtOrBefore_spec l t with ⟨-, hall⟩ | ⟨k, -, hk, -, -⟩
    · exact hall
    · rw [h] at hk; omega
  · intro hall
    rcases findIdxAtOrBefore_spec l t with ⟨h, -⟩ | ⟨k, -, -, ⟨p, hp, htrue⟩, -⟩
    · exact h
    · exact absurd (hall p (List.getElem?_mem hp)) (by simp [htrue])

/-- The only error `snapSlice` produces is `insufficientDataAfterSnap`. -/
theorem snapSlice_error_eq {ser : List PricePoint} {s e : String} {err : PriceError}
    (h : snapSlice ser s e = .error err) : err = .insufficientDataAfterSnap := by
  simp only [snapSlice] at h
  split at h
  · exact (Except.error.injEq .. ▸ h.symm)
  · exact absurd h (by simp)

/-- A successful non-stub `getAdjustedSeries` on a cache miss is exactly a
successful snap of the normalized fetch result, with the window cached and the
upstream consulted. -/
theorem getAdjustedSeries_ok_path {cache : Cache} {rows : List RawRow}
    {ticker startISO endISO : String} {sd ed : Int}
    {out : List PricePoint} {c' : Cache} {f : Bool}
    (hmiss : cache.lookup (cacheKey ticker startISO endISO) = none)
    (hsd : toDate startISO = .ok sd) (hed : toDate endISO = .ok ed)
    (hok : getAdjustedSeries false cache (.ok rows) ticker startISO endISO =
      (.ok out, c', f)) :
    snapSlice (normalizeRows rows) (fmt sd) (fmt ed) = .ok out ∧
      c' = (cacheKey ticker startISO endISO, out) :: cache ∧ f = true := by
  by_cases hne : normalizeRows rows = []
  · simp only [getAdjustedSeries, Bool.false_eq_true, if_false, hmiss, hsd, hed] at hok
    rw [if_pos (by simp [hne])] at hok
    exact absurd hok (by simp)
  · rw [getAdjustedSeries_fetch_path cache rows ticker startISO endISO sd ed
      hmiss hsd hed hne] at hok
    cases hsnap : snapSlice (normalizeRows rows) (fmt sd) (fmt ed) with
    | error err => rw [hsnap] at hok; exact absurd hok (by simp)
    | ok window =>
      rw [hsnap] at hok
      obtain ⟨h1, h2⟩ := Prod.mk.injEq .. ▸ hok
      obtain ⟨h2, h3⟩ := Prod.mk.injEq .. ▸ h2
      injection h1 with h1
      subst h1
      exact ⟨rfl, h2.symm, h3.symm⟩

-- --- Inversion of a successful backtest route -------------------------------

/-- Anatomy of a successful `POST /api/v1/backtest`: validation passed, the
provider returned a series of length ≥ 2, and every response field is the
source formula evaluated at the series endpoints. -/
theorem backtestRoute_ok {isStub : Bool} {cache : Cache}
    {fetched : Except String (List RawRow)} {p : Body} {resp : BacktestResp}
    {c' : Cache}
    (h : backtestRoute isStub cache fetched p = (.ok resp, c')) :
    bodyValid p = true ∧
    ∃ ser f first last,
      getAdjustedSeries isStub cache fetched p.ticker p.start_date p.end_date =
        (.ok ser, c', f) ∧
      2 ≤ ser.length ∧ ser.head? = some first ∧ ser.getLast? = some last ∧
      resp = { series := ser
               shares := p.amount / first.adj_close * (1 - p.fees_bps / 10000)
               final_value := p.amount / first.adj_close * (1 - p.fees_bps / 10000) *
                 last.adj_close
               total_return_pct := totalReturnPct p.amount
                 (p.amount / first.adj_close * (1 - p.fees_bps / 10000) * last.adj_close)
               elapsed_days := routeDays first.date last.date
               fees_bps := p.fees_bps
               effective_start_date := first.date
               effective_end_date := last.date } := by
  unfold backtestRoute at h
  split at h
  · rename_i hvalid
    refine ⟨hvalid, ?_⟩
    split at h
    · exact absurd h (by simp)
    · rename_i ser cc fl hget
      split at h
      · exact absurd h (by simp)
      · rename_i hlen
        split at h
        · rename_i first last hfirst hlast
          obtain ⟨hresp, hcc⟩ := Prod.mk.injEq .. ▸ h
          injection hresp with hresp
          refine ⟨ser, fl, first, last, ?_, by omega, hfirst, hlast, hresp.symm⟩
          rw [hget, hcc]
        · exact absurd h (by simp)
  · exact absurd h (by simp)

-- ============================================================================
-- Claims
-- ============================================================================

/-- C8: for every successful backtest response, `total_return_pct` equals
`(final_value - amount) / amount` exactly, where `amount` is the requested
invested amount and `final_value` is the value in the same response. -/
theorem total_return_identity (isStub : Bool) (cache : Cache)
    (fetched : Except String (List RawRow)) (p : Body) {resp : BacktestResp}
    {c' : Cache}
    (h : backtestRoute isStub cache fetched p = (.ok resp, c')) :
    resp.total_return_pct = (resp.final_value - p.amount) / p.amount := by
  obtain ⟨-, ser, f, first, last, -, -, -, -, rfl⟩ := backtestRoute_ok h
  rfl

/-- Witness for C8 at the stub scenario (TSLA, 100, 2016-01-04..2016-12-30). -/
theorem total_return_identity_witness :
    ∃ resp c', backtestRoute true [] (.ok [])
        ⟨"TSLA", 100, "2016-01-04", "2016-12-30", 0⟩ = (.ok resp, c') ∧
      resp.total_return_pct = (resp.final_value - 100) / 100 := by
  refine ⟨_, _, rfl, ?_⟩
  exact total_return_identity true [] (.ok [])
    ⟨"TSLA", 100, "2016-01-04", "2016-12-30", 0⟩ rfl

/-- C2: for every request with `amount > 0`, `fee_bps ∈ [0, 10000]`, and a
returned series with positive endpoint prices, the backtest computes
`shares = (amount / price_at_effective_start) * (1 - fee_bps / 10000)` and
`final_value = shares * price_at_effective_end`. -/
theorem metrics_formulas (isStub : Bool) (cache : Cache)
    (fetched : Except String (List RawRow)) (p : Body) {resp : BacktestResp}
    {c' : Cache} {first last : PricePoint}
    (hamt : 0 < p.amount) (hf0 : 0 ≤ p.fees_bps) (hf1 : p.fees_bps ≤ 10000)
    (h : backtestRoute isStub cache fetched p = (.ok resp, c'))
    (hfirst : resp.series.head? = some first)
    (hlast : resp.series.getLast? = some last)
    (hp0 : 0 < first.adj_close) (hp1 : 0 < last.adj_close) :
    resp.shares = p.amount / first.adj_close * (1 - p.fees_bps / 10000) ∧
    resp.final_value = resp.shares * last.adj_close := by
  obtain ⟨-, ser, f, f1, l1, -, -, hf1', hl1', rfl⟩ := backtestRoute_ok h
  have e1 : f1 = first := Option.some_inj.mp (hf1'.symm.trans hfirst)
  have e2 : l1 = last := Option.some_inj.mp (hl1'.symm.trans hlast)
  subst e1; subst e2
  exact ⟨rfl, rfl⟩

/-- Witness for C2 at the fee scenario: amount 100, prices 10 → 15,
fee_bps 50 give shares = 9.95 and final_value = 149.25. -/
theorem metrics_formulas_witness :
    ∃ resp c', backtestRoute true [] (.ok [])
        ⟨"TSLA", 100, "2016-01-04", "2016-12-30", 50⟩ = (.ok resp, c') ∧
      resp.shares = 199/20 ∧ resp.final_value = 597/4 := by
  refine ⟨_, _, rfl, ?_, ?_⟩
  · have h := metrics_formulas true [] (.ok [])
      ⟨"TSLA", 100, "2016-01-04", "2016-12-30", 50⟩
      (by norm_num) (by norm_num) (by norm_num) rfl rfl rfl (by norm_num) (by norm_num)
    rw [h.1]; norm_num
  · have h := metrics_formulas true [] (.ok [])
      ⟨"TSLA", 100, "2016-01-04", "2016-12-30", 50⟩
      (by norm_num) (by norm_num) (by norm_num) rfl rfl rfl (by norm_num) (by norm_num)
    rw [h.2, h.1]; norm_num

/-- C7 counterexample: the validated stub-mode request with
`start_date = end_date = "2016-02-30"` (shape-valid, but not a calendar
date — February 2016 has 29 days) succeeds with equal effective dates, yet
`Date.parse` yields NaN there, so `days = Math.max(1, Math.round(NaN)) = NaN`
and `cagr = NaN` (NaN modelled as `none`): `elapsed_days` is not floored to 1
and the cagr is NaN, refuting the claim's "floored to 1, never NaN". -/
theorem elapsed_days_nan_counterexample :
    bodyValid ⟨"TSLA", 100, "2016-02-30", "2016-02-30", 0⟩ = true ∧
    dateParse "2016-02-30" = none ∧
    ∃ resp, backtestRoute true [] (.ok [])
        ⟨"TSLA", 100, "2016-02-30", "2016-02-30", 0⟩ = (.ok resp, []) ∧
      resp.effective_start_date = resp.effective_end_date ∧
      resp.elapsed_days = none ∧
      backtestCagr ⟨"TSLA", 100, "2016-02-30", "2016-02-30", 0⟩ resp = none := by
  refine ⟨by decide, by decide, _, rfl, rfl, rfl, rfl⟩

/-- C7 amended: for every successful backtest whose effective dates are
genuine calendar dates (`Date.parse` succeeds), `elapsed_days = max(1, round
of the calendar-day difference)` (the millisecond quotient is an exact
integer, so the round is the identity), and when the effective start and end
coincide, `elapsed_days` is floored to 1 and the cagr is a (finite) real
number.  When an effective date is shape-valid but not a calendar date
(reachable in stub mode, see the counterexample), `elapsed_days` and the cagr
are NaN instead. -/
theorem elapsed_days_floor (isStub : Bool) (cache : Cache)
    (fetched : Except String (List RawRow)) (p : Body) {resp : BacktestResp}
    {c' : Cache} {a b : Int}
    (h : backtestRoute isStub cache fetched p = (.ok resp, c'))
    (ha : dateParse resp.effective_start_date = some a)
    (hb : dateParse resp.effective_end_date = some b) :
    resp.elapsed_days = some (max 1 (b - a)) ∧
    (resp.effective_start_date = resp.effective_end_date →
      resp.elapsed_days = some 1 ∧ ∃ c : ℝ, backtestCagr p resp = some c) := by
  obtain ⟨-, ser, f, first, last, -, -, -, -, rfl⟩ := backtestRoute_ok h
  dsimp only at ha hb ⊢
  have hdays : routeDays first.date last.date = some (max 1 (b - a)) := by
    simp only [routeDays, ha, hb]
  refine ⟨hdays, fun heq => ?_⟩
  have hab : a = b := by
    rw [heq] at ha
    exact Option.some_inj.mp (ha.symm.trans hb)
  subst hab
  have h1 : routeDays first.date last.date = some 1 := by
    rw [hdays, sub_self]
    norm_num
  refine ⟨h1, ?_⟩
  simp only [backtestCagr]
  rw [h1]
  exact ⟨_, rfl⟩

/-- Witness for C7 at the degenerate stub window 2016-01-04..2016-01-04. -/
theorem elapsed_days_floor_witness :
    ∃ resp c', backtestRoute true [] (.ok [])
        ⟨"TSLA", 100, "2016-01-04", "2016-01-04", 0⟩ = (.ok resp, c') ∧
      resp.elapsed_days = some 1 ∧ ∃ c : ℝ,
        backtestCagr ⟨"TSLA", 100, "2016-01-04", "2016-01-04", 0⟩ resp = some c := by
  refine ⟨_, _, rfl, ?_⟩
  have h := elapsed_days_floor true [] (.ok [])
    ⟨"TSLA", 100, "2016-01-04", "2016-01-04", 0⟩
    (a := daysFromCivil 2016 1 4) (b := daysFromCivil 2016 1 4) rfl rfl rfl
  exact h.2 rfl

/-- C10: in stub mode a validated request with `start_date = end_date` is
answered with success: the series is the two stub points carrying the same
date (prices 10 and 15), `shares = amount/10 · fee_multiplier`, and
`final_value = 1.5 · amount · fee_multiplier` — not InsufficientDataAfterSnap. -/
theorem stub_degenerate_window (cache : Cache)
    (fetched : Except String (List RawRow)) (p : Body)
    (hv : bodyValid p = true) (heq : p.start_date = p.end_date) :
    ∃ resp, backtestRoute true cache fetched p = (.ok resp, cache) ∧
      resp.series = [⟨p.start_date, 10⟩, ⟨p.start_date, 15⟩] ∧
      resp.shares = p.amount / 10 * (1 - p.fees_bps / 10000) ∧
      resp.final_value = 3/2 * p.amount * (1 - p.fees_bps / 10000) := by
  unfold backtestRoute
  rw [hv]
  refine ⟨_, rfl, ?_, rfl, ?_⟩
  · rw [← heq]
  · show p.amount / 10 * (1 - p.fees_bps / 10000) * 15 = _
    ring

/-- Witness for C10: TSLA, amount 100, both dates 2016-01-04, fee 0. -/
theorem stub_degenerate_window_witness :
    ∃ resp, backtestRoute true [] (.ok [])
        ⟨"TSLA", 100, "2016-01-04", "2016-01-04", 0⟩ = (.ok resp, []) ∧
      resp.series = [⟨"2016-01-04", 10⟩, ⟨"2016-01-04", 15⟩] ∧
      resp.shares = 100 / 10 * (1 - 0 / 10000) ∧
      resp.final_value = 3/2 * 100 * (1 - 0 / 10000) :=
  stub_degenerate_window [] (.ok [])
    ⟨"TSLA", 100, "2016-01-04", "2016-01-04", 0⟩ (by decide) rfl

/-- C9: in non-stub mode a successful `getAdjustedSeries` on a cache miss
stores exactly the returned snapped slice under the key built from the
requested `(ticker, start, end)` before returning, and a call finding that
key present returns the stored series unchanged without consulting the
upstream source (third component `false`). -/
theorem cache_roundtrip :
    (∀ (cache : Cache) (fetched : Except String (List RawRow))
        (ticker s e : String) (out : List PricePoint) (c' : Cache) (f : Bool),
        cache.lookup (cacheKey ticker s e) = none →
        getAdjustedSeries false cache fetched ticker s e = (.ok out, c', f) →
        c' = (cacheKey ticker s e, out) :: cache ∧
        c'.lookup (cacheKey ticker s e) = some out) ∧
    (∀ (cache : Cache) (fetched : Except String (List RawRow))
        (ticker s e : String) (hit : List PricePoint),
        cache.lookup (cacheKey ticker s e) = some hit →
        getAdjustedSeries false cache fetched ticker s e = (.ok hit, cache, false)) := by
  constructor
  · intro cache fetched ticker s e out c' f hmiss hok
    simp only [getAdjustedSeries, Bool.false_eq_true, if_false, hmiss] at hok
    split at hok
    · exact absurd hok (by simp)
    · split at hok
      · exact absurd hok (by simp)
      · split at hok
        · exact absurd hok (by simp)
        · rename_i rows
          split at hok
          · exact absurd hok (by simp)
          · split at hok
            · exact absurd hok (by simp)
            · rename_i window hsnap
              obtain ⟨h1, h2⟩ := Prod.mk.injEq .. ▸ hok
              obtain ⟨h2, h3⟩ := Prod.mk.injEq .. ▸ h2
              injection h1 with h1
              subst h1
              refine ⟨h2.symm, ?_⟩
              rw [← h2]
              simp
  · intro cache fetched ticker s e hit hhit
    simp only [getAdjustedSeries, Bool.false_eq_true, if_false, hhit]

/-- Witness for C9: a concrete miss-store and a concrete hit. -/
theorem cache_roundtrip_witness :
    ((("prices:TSLA:2016-01-04:2016-01-06",
        [(⟨"2016-01-04", 10⟩ : PricePoint), ⟨"2016-01-05", 11⟩, ⟨"2016-01-06", 12⟩]) ::
        ([] : Cache)) = ("prices:TSLA:2016-01-04:2016-01-06",
        [(⟨"2016-01-04", 10⟩ : PricePoint), ⟨"2016-01-05", 11⟩, ⟨"2016-01-06", 12⟩]) ::
        ([] : Cache) ∧
      (("prices:TSLA:2016-01-04:2016-01-06",
        [(⟨"2016-01-04", 10⟩ : PricePoint), ⟨"2016-01-05", 11⟩, ⟨"2016-01-06", 12⟩]) ::
        ([] : Cache)).lookup (cacheKey "TSLA" "2016-01-04" "2016-01-06") =
        some [⟨"2016-01-04", 10⟩, ⟨"2016-01-05", 11⟩, ⟨"2016-01-06", 12⟩]) ∧
    getAdjustedSeries false
        [(cacheKey "TSLA" "2016-01-04" "2016-01-06", [⟨"2016-01-07", 9⟩])]
        (.ok []) "TSLA" "2016-01-04" "2016-01-06" =
      (.ok [⟨"2016-01-07", 9⟩],
        [(cacheKey "TSLA" "2016-01-04" "2016-01-06", [⟨"2016-01-07", 9⟩])], false) :=
  ⟨cache_roundtrip.1 [] (.ok [⟨some "2016-01-06", some 12⟩, ⟨some "2016-01-04", some 10⟩,
      ⟨some "2016-01-05", some 11⟩]) "TSLA" "2016-01-04" "2016-01-06"
      [⟨"2016-01-04", 10⟩, ⟨"2016-01-05", 11⟩, ⟨"2016-01-06", 12⟩]
      _ _ rfl rfl,
    cache_roundtrip.2 [(cacheKey "TSLA" "2016-01-04" "2016-01-06", [⟨"2016-01-07", 9⟩])]
      (.ok []) "TSLA" "2016-01-04" "2016-01-06" [⟨"2016-01-07", 9⟩] rfl⟩

/-- C3 counterexample: the request body with `start_date = "2016-13-01"`
passes validation (the schema checks only the digit shape), `toDate` does not
throw but rolls the date over to 2017-01-01, and `getAdjustedSeries` consults
the upstream source (third component `true`), failing later with `noData`
rather than with InvalidDate before the fetch. -/
theorem invalid_date_counterexample :
    bodyValid ⟨"TSLA", 100, "2016-13-01", "2016-13-01", 0⟩ = true ∧
    toDate "2016-13-01" = .ok (daysFromCivil 2017 1 1) ∧
    getAdjustedSeries false [] (.ok []) "TSLA" "2016-13-01" "2016-13-01" =
      (.error .noData, [], true) :=
  ⟨by decide, rfl, rfl⟩

/-- C3 amended: date validation enforces only the digit shape
`\d{4}-\d{2}-\d{2}`; a string failing that shape fails `toDate` with
InvalidDate and fails body validation (so no upstream fetch can be reached),
while any well-shaped string — including out-of-range ones like 2016-13-01 —
is accepted, with `Date.UTC` rolling the excess over. -/
theorem invalid_date_amended (s : String) (hshape : isIsoShape s = false)
    (p : Body) (hs : p.start_date = s) :
    toDate s = .error (.invalidDate s) ∧ bodyValid p = false := by
  constructor
  · unfold toDate
    cases hp : parseIso s with
    | none => rfl
    | some v => rw [isIsoShape, hp] at hshape; simp at hshape
  · unfold bodyValid
    rw [hs, hshape]
    simp

/-- Witness for C3 amended at the malformed string "2016-1-1". -/
theorem invalid_date_amended_witness :
    toDate "2016-1-1" = .error (.invalidDate "2016-1-1") ∧
    bodyValid ⟨"T", 1, "2016-1-1", "2016-01-01", 0⟩ = false :=
  invalid_date_amended "2016-1-1" (by decide)
    ⟨"T", 1, "2016-1-1", "2016-01-01", 0⟩ rfl

/-- C5 counterexample: in stub mode with `start_date = end_date` (accepted by
validation) the successfully returned series carries two points with the same
date — dates are neither strictly ascending nor unique. -/
theorem series_invariant_counterexample :
    (getAdjustedSeries true [] (.ok []) "TSLA" "2016-01-04" "2016-01-04").1 =
      .ok [⟨"2016-01-04", 10⟩, ⟨"2016-01-04", 15⟩] ∧
    ¬ ([(⟨"2016-01-04", 10⟩ : PricePoint), ⟨"2016-01-04", 15⟩].Pairwise
        fun a b => strLt a.date b.date = true) := by
  refine ⟨rfl, fun hp => ?_⟩
  have h := (List.pairwise_cons.mp hp).1 (⟨"2016-01-04", 15⟩ : PricePoint) (by simp)
  exact absurd h (by decide)

/-- C5 amended: a successful non-stub `getAdjustedSeries` on a cache miss
returns a series of length ≥ 2 that is ascending by date — strictly (hence
with unique dates) whenever the normalized upstream rows carry pairwise-
distinct dates — with first-point date ≤ last-point date; the stub series is
strictly ascending only when `start < end` (with `start = end` the two stub
points share one date, see the counterexample). -/
theorem series_invariant_amended :
    (∀ (cache : Cache) (rows : List RawRow) (ticker startISO endISO : String)
        (sd ed : Int) (out : List PricePoint) (c' : Cache) (f : Bool),
        cache.lookup (cacheKey ticker startISO endISO) = none →
        toDate startISO = .ok sd → toDate endISO = .ok ed →
        getAdjustedSeries false cache (.ok rows) ticker startISO endISO =
          (.ok out, c', f) →
        2 ≤ out.length ∧ out.Pairwise dateLe ∧
        (((normalizeRows rows).map fun q => q.date).Nodup →
          out.Pairwise fun a b => strLt a.date b.date = true) ∧
        (∀ a b, out.head? = some a → out.getLast? = some b →
          strLe a.date b.date = true)) ∧
    (∀ (cache : Cache) (fetched : Except String (List RawRow))
        (ticker startISO endISO : String),
        strLt startISO endISO = true →
        (getAdjustedSeries true cache fetched ticker startISO endISO).1 =
          .ok [⟨startISO, 10⟩, ⟨endISO, 15⟩] ∧
        ([(⟨startISO, 10⟩ : PricePoint), ⟨endISO, 15⟩]).Pairwise
          fun a b => strLt a.date b.date = true) := by
  constructor
  · intro cache rows ticker startISO endISO sd ed out c' f hmiss hsd hed hok
    obtain ⟨hsnap, -, -⟩ := getAdjustedSeries_ok_path hmiss hsd hed hok
    obtain ⟨i, j, -, -, hij, hjl, hout⟩ := snapSlice_ok hsnap
    have hsub : List.Sublist out (normalizeRows rows) := by
      rw [hout]
      exact (List.take_sublist _ _).trans (List.drop_sublist _ _)
    have hlen : 2 ≤ out.length := by
      rw [hout]
      simp only [List.length_take, List.length_drop]
      omega
    have hpw : out.Pairwise dateLe := (normalizeRows_sorted rows).sublist hsub
    refine ⟨hlen, hpw, ?_, ?_⟩
    · intro hnd
      exact (normalizeRows_strict rows hnd).sublist hsub
    · intro a b ha hb
      exact pairwise_head_getLast (fun x => strLe_refl x.date) out hpw ha hb
  · intro cache fetched ticker startISO endISO hlt
    refine ⟨rfl, List.Pairwise.cons ?_ (List.Pairwise.cons
      (fun b hb => absurd hb (List.not_mem_nil b)) List.Pairwise.nil)⟩
    intro p hp
    rw [List.mem_singleton] at hp
    subst hp
    exact hlt

/-- Witness for C5 amended: the non-stub part at a concrete sorted 3-row
fetch, and the stub part at 2016-01-04 < 2016-12-30. -/
theorem series_invariant_amended_witness :
    (2 ≤ ([(⟨"2016-01-04", 10⟩ : PricePoint), ⟨"2016-01-05", 11⟩,
        ⟨"2016-01-06", 12⟩]).length ∧
      ([(⟨"2016-01-04", 10⟩ : PricePoint), ⟨"2016-01-05", 11⟩,
        ⟨"2016-01-06", 12⟩]).Pairwise dateLe ∧
      (((normalizeRows [⟨some "2016-01-06", some 12⟩, ⟨some "2016-01-04", some 10⟩,
          ⟨some "2016-01-05", some 11⟩]).map fun q => q.date).Nodup →
        ([(⟨"2016-01-04", 10⟩ : PricePoint), ⟨"2016-01-05", 11⟩,
          ⟨"2016-01-06", 12⟩]).Pairwise fun a b => strLt a.date b.date = true) ∧
      (∀ a b, ([(⟨"2016-01-04", 10⟩ : PricePoint), ⟨"2016-01-05", 11⟩,
          ⟨"2016-01-06", 12⟩]).head? = some a →
        ([(⟨"2016-01-04", 10⟩ : PricePoint), ⟨"2016-01-05", 11⟩,
          ⟨"2016-01-06", 12⟩]).getLast? = some b →
        strLe a.date b.date = true)) ∧
    ((getAdjustedSeries true [] (.ok []) "TSLA" "2016-01-04" "2016-12-30").1 =
        .ok [⟨"2016-01-04", 10⟩, ⟨"2016-12-30", 15⟩] ∧
      ([(⟨"2016-01-04", 10⟩ : PricePoint), ⟨"2016-12-30", 15⟩]).Pairwise
        fun a b => strLt a.date b.date = true) :=
  ⟨series_invariant_amended.1 [] [⟨some "2016-01-06", some 12⟩,
      ⟨some "2016-01-04", some 10⟩, ⟨some "2016-01-05", some 11⟩]
      "TSLA" "2016-01-04" "2016-01-06" (daysFromCivil 2016 1 4) (daysFromCivil 2016 1 6)
      [⟨"2016-01-04", 10⟩, ⟨"2016-01-05", 11⟩, ⟨"2016-01-06", 12⟩] _ _
      rfl rfl rfl rfl,
    series_invariant_amended.2 [] (.ok []) "TSLA" "2016-01-04" "2016-12-30" (by decide)⟩

/-- C1: on the non-stub fetch path (cache miss, parseable round-tripping
dates, ascending normalized series), a successful `getAdjustedSeries`
resolves the effective start to the first (smallest-index) point whose date
is ≥ the requested start, the effective end to the last (largest-index) point
whose date is ≤ the requested end, and returns exactly the contiguous
inclusive slice between those two indices. -/
theorem snap_correctness (cache : Cache) (rows : List RawRow)
    (ticker startISO endISO : String) (sd ed : Int) {ser out : List PricePoint}
    {c' : Cache} {f : Bool}
    (hmiss : cache.lookup (cacheKey ticker startISO endISO) = none)
    (hsd : toDate startISO = .ok sd) (hed : toDate endISO = .ok ed)
    (hfs : fmt sd = startISO) (hfe : fmt ed = endISO)
    (hser : normalizeRows rows = ser)
    (hsorted : ser.Pairwise fun a b => strLt a.date b.date = true)
    (hok : getAdjustedSeries false cache (.ok rows) ticker startISO endISO =
      (.ok out, c', f)) :
    ∃ i j : Nat,
      findIdxAtOrAfter ser startISO = (i : Int) ∧
      (∃ p, ser[i]? = some p ∧ strLe startISO p.date = true) ∧
      (∀ m p, m < i → ser[m]? = some p → strLe startISO p.date = false) ∧
      findIdxAtOrBefore ser endISO = (j : Int) ∧
      (∃ p, ser[j]? = some p ∧ strLe p.date endISO = true) ∧
      (∀ m p, j < m → ser[m]? = some p → strLe p.date endISO = false) ∧
      i < j ∧ out = (ser.drop i).take (j + 1 - i) := by
  subst hser
  obtain ⟨hsnap, -, -⟩ := getAdjustedSeries_ok_path hmiss hsd hed hok
  rw [hfs, hfe] at hsnap
  obtain ⟨i, j, hi, hj, hij, hjl, hout⟩ := snapSlice_ok hsnap
  rcases findIdxAtOrAfter_spec (normalizeRows rows) startISO with ⟨hneg, -⟩ |
    ⟨k, hk, hex, hmin⟩
  · rw [hneg] at hi; omega
  · have hki : k = i := by
      have hcast := hk.symm.trans hi
      exact_mod_cast hcast
    subst hki
    rcases findIdxAtOrBefore_spec (normalizeRows rows) endISO with ⟨hneg, -⟩ |
      ⟨k', -, hk', hex', hmax'⟩
    · rw [hneg] at hj; omega
    · have hkj : k' = j := by
        have hcast := hk'.symm.trans hj
        exact_mod_cast hcast
      subst hkj
      exact ⟨k, k', hi, hex, hmin, hj, hex', hmax', hij, hout⟩

/-- Witness for C1 at a concrete unsorted 3-row fetch snapped to
[2016-01-04, 2016-01-06]. -/
theorem snap_correctness_witness :
    ∃ i j : Nat,
      findIdxAtOrAfter [(⟨"2016-01-04", 10⟩ : PricePoint), ⟨"2016-01-05", 11⟩,
        ⟨"2016-01-06", 12⟩] "2016-01-04" = (i : Int) ∧
      (∃ p, ([(⟨"2016-01-04", 10⟩ : PricePoint), ⟨"2016-01-05", 11⟩,
        ⟨"2016-01-06", 12⟩])[i]? = some p ∧ strLe "2016-01-04" p.date = true) ∧
      (∀ m p, m < i → ([(⟨"2016-01-04", 10⟩ : PricePoint), ⟨"2016-01-05", 11⟩,
        ⟨"2016-01-06", 12⟩])[m]? = some p → strLe "2016-01-04" p.date = false) ∧
      findIdxAtOrBefore [(⟨"2016-01-04", 10⟩ : PricePoint), ⟨"2016-01-05", 11⟩,
        ⟨"2016-01-06", 12⟩] "2016-01-06" = (j : Int) ∧
      (∃ p, ([(⟨"2016-01-04", 10⟩ : PricePoint), ⟨"2016-01-05", 11⟩,
        ⟨"2016-01-06", 12⟩])[j]? = some p ∧ strLe p.date "2016-01-06" = true) ∧
      (∀ m p, j < m → ([(⟨"2016-01-04", 10⟩ : PricePoint), ⟨"2016-01-05", 11⟩,
        ⟨"2016-01-06", 12⟩])[m]? = some p → strLe p.date "2016-01-06" = false) ∧
      i < j ∧
      [(⟨"2016-01-04", 10⟩ : PricePoint), ⟨"2016-01-05", 11⟩, ⟨"2016-01-06", 12⟩] =
        (([(⟨"2016-01-04", 10⟩ : PricePoint), ⟨"2016-01-05", 11⟩,
          ⟨"2016-01-06", 12⟩]).drop i).take (j + 1 - i) :=
  snap_correctness []
    [⟨some "2016-01-06", some 12⟩, ⟨some "2016-01-04", some 10⟩,
      ⟨some "2016-01-05", some 11⟩]
    "TSLA" "2016-01-04" "2016-01-06" (daysFromCivil 2016 1 4) (daysFromCivil 2016 1 6)
    rfl rfl rfl (by decide) (by decide) rfl (by decide) rfl

/-- C4: on the same fetch path with a non-empty normalized series,
`getAdjustedSeries` fails with InsufficientDataAfterSnap exactly when no
point has date ≥ the requested start, or no point has date ≤ the requested
end, or the resolved end index is not strictly after the resolved start
index; and every success carries at least 2 points. -/
theorem insufficient_data_iff (cache : Cache) (rows : List RawRow)
    (ticker startISO endISO : String) (sd ed : Int) {ser : List PricePoint}
    (hmiss : cache.lookup (cacheKey ticker startISO endISO) = none)
    (hsd : toDate startISO = .ok sd) (hed : toDate endISO = .ok ed)
    (hfs : fmt sd = startISO) (hfe : fmt ed = endISO)
    (hser : normalizeRows rows = ser) (hne : ser ≠ []) :
    (getAdjustedSeries false cache (.ok rows) ticker startISO endISO =
        (.error .insufficientDataAfterSnap, cache, true) ↔
      (∀ p ∈ ser, strLe startISO p.date = false) ∨
      (∀ p ∈ ser, strLe p.date endISO = false) ∨
      findIdxAtOrBefore ser endISO ≤ findIdxAtOrAfter ser startISO) ∧
    (∀ out c' f, getAdjustedSeries false cache (.ok rows) ticker startISO endISO =
        (.ok out, c', f) → 2 ≤ out.length) := by
  subst hser
  constructor
  · rw [getAdjustedSeries_fetch_path cache rows ticker startISO endISO sd ed
      hmiss hsd hed hne, hfs, hfe]
    cases hsnap : snapSlice (normalizeRows rows) startISO endISO with
    | error err =>
      have herr := snapSlice_error_eq hsnap
      subst herr
      constructor
      · intro _h
        rcases (snapSlice_error_iff _ _ _).mp hsnap with h | h | h
        · exact Or.inl ((findIdxAtOrAfter_eq_neg1_iff _ _).mp h)
        · exact Or.inr (Or.inl ((findIdxAtOrBefore_eq_neg1_iff _ _).mp h))
        · exact Or.inr (Or.inr h)
      · intro _h
        rfl
    | ok window =>
      constructor
      · intro habs
        exact absurd habs (by simp)
      · intro hcond
        have herr : snapSlice (normalizeRows rows) startISO endISO =
            .error .insufficientDataAfterSnap := by
          rw [snapSlice_error_iff]
          rcases hcond with h | h | h
          · exact Or.inl ((findIdxAtOrAfter_eq_neg1_iff _ _).mpr h)
          · exact Or.inr (Or.inl ((findIdxAtOrBefore_eq_neg1_iff _ _).mpr h))
          · exact Or.inr (Or.inr h)
        rw [hsnap] at herr
        exact absurd herr (by simp)
  · intro out c' f hok
    obtain ⟨hsnap, -, -⟩ := getAdjustedSeries_ok_path hmiss hsd hed hok
    obtain ⟨i, j, -, -, hij, hjl, hout⟩ := snapSlice_ok hsnap
    rw [hout]
    simp only [List.length_take, List.length_drop]
    omega

/-- Witness for C4 at the same concrete 3-row fetch (where the iff's two
sides are both false and the success window has 3 ≥ 2 points). -/
theorem insufficient_data_iff_witness :
    (getAdjustedSeries false [] (.ok [⟨some "2016-01-06", some 12⟩,
        ⟨some "2016-01-04", some 10⟩, ⟨some "2016-01-05", some 11⟩])
        "TSLA" "2016-01-04" "2016-01-06" =
        (.error .insufficientDataAfterSnap, [], true) ↔
      (∀ p ∈ [(⟨"2016-01-04", 10⟩ : PricePoint), ⟨"2016-01-05", 11⟩,
        ⟨"2016-01-06", 12⟩], strLe "2016-01-04" p.date = false) ∨
      (∀ p ∈ [(⟨"2016-01-04", 10⟩ : PricePoint), ⟨"2016-01-05", 11⟩,
        ⟨"2016-01-06", 12⟩], strLe p.date "2016-01-06" = false) ∨
      findIdxAtOrBefore [(⟨"2016-01-04", 10⟩ : PricePoint), ⟨"2016-01-05", 11⟩,
        ⟨"2016-01-06", 12⟩] "2016-01-06" ≤
        findIdxAtOrAfter [(⟨"2016-01-04", 10⟩ : PricePoint), ⟨"2016-01-05", 11⟩,
        ⟨"2016-01-06", 12⟩] "2016-01-04") ∧
    (∀ out c' f, getAdjustedSeries false [] (.ok [⟨some "2016-01-06", some 12⟩,
        ⟨some "2016-01-04", some 10⟩, ⟨some "2016-01-05", some 11⟩])
        "TSLA" "2016-01-04" "2016-01-06" = (.ok out, c', f) → 2 ≤ out.length) :=
  insufficient_data_iff []
    [⟨some "2016-01-06", some 12⟩, ⟨some "2016-01-04", some 10⟩,
      ⟨some "2016-01-05", some 11⟩]
    "TSLA" "2016-01-04" "2016-01-06" (daysFromCivil 2016 1 4) (daysFromCivil 2016 1 6)
    rfl rfl rfl (by decide) (by decide) rfl (by decide)

-- --- C6: the stub-mode scenario and its CAGR --------------------------------

/-- The cagr of the stub scenario in closed form: base 150/100 = 3/2,
years = 361/365.25 (epsilon floor inactive), exponent 365.25/361 = 1461/1444. -/
theorem cagr_stub_eval : cagr 100 150 361 = (3/2 : ℝ) ^ ((1461 : ℝ) / 1444) - 1 := by
  simp only [cagr]
  rw [max_eq_left (by norm_num)]
  have hbase : ((150 : ℚ) : ℝ) / ((100 : ℚ) : ℝ) = 3/2 := by norm_num
  have hexp : (1 : ℝ) / ((((361 : Int)) : ℝ) / 365.25) = 1461 / 1444 := by norm_num
  rw [hbase, hexp]

/-- Lower bound: the exponent exceeds 1 and the base exceeds 1, so the
scenario cagr exceeds 3/2 − 1 = 1/2. -/
theorem cagr_stub_lower : (1/2 : ℝ) < (3/2 : ℝ) ^ ((1461 : ℝ) / 1444) - 1 := by
  have h2 : (3/2 : ℝ) ^ (1 : ℝ) < (3/2 : ℝ) ^ ((1461 : ℝ) / 1444) :=
    Real.rpow_lt_rpow_of_exponent_lt (by norm_num) (by norm_num)
  have h1 := Real.rpow_one (3/2 : ℝ)
  linarith

/-- Upper bound: the exponent is ≤ 103/100 and (3/2)^(103/100) < 38/25,
because (3/2)^103 < (38/25)^100. -/
theorem cagr_stub_upper : (3/2 : ℝ) ^ ((1461 : ℝ) / 1444) - 1 < 13/25 := by
  have mono : (3/2 : ℝ) ^ ((1461 : ℝ) / 1444) ≤ (3/2 : ℝ) ^ ((103 : ℝ) / 100) :=
    Real.rpow_le_rpow_of_exponent_le (by norm_num) (by norm_num)
  have key : (3/2 : ℝ) ^ ((103 : ℝ) / 100) < 38/25 := by
    refine lt_of_pow_lt_pow_left 100 (by norm_num) ?_
    have heq : ((3/2 : ℝ) ^ ((103 : ℝ) / 100)) ^ (100 : ℕ) = (3/2 : ℝ) ^ (103 : ℕ) := by
      rw [← Real.rpow_natCast ((3/2 : ℝ) ^ ((103 : ℝ) / 100)) 100,
        ← Real.rpow_mul (by norm_num : (0 : ℝ) ≤ 3/2),
        show ((103 : ℝ) / 100) * ((100 : ℕ) : ℝ) = ((103 : ℕ) : ℝ) by push_cast; ring,
        Real.rpow_natCast]
    rw [heq]
    norm_num
  linarith

/-- C6 counterexample: at the stub scenario (TSLA, amount 100,
2016-01-04..2016-12-30, fee 0) the response's cagr is `cagr 100 150 361 =
(3/2)^(365.25/361) − 1 ≈ 0.5072`, which exceeds the claimed ≈ 0.4373 by more
than 0.05 — the claim's cagr value is wrong. -/
theorem stub_scenario_counterexample :
    ∃ resp, (backtestRoute true [] (.ok [])
        ⟨"TSLA", 100, "2016-01-04", "2016-12-30", 0⟩).1 = .ok resp ∧
      backtestCagr ⟨"TSLA", 100, "2016-01-04", "2016-12-30", 0⟩ resp =
        some (cagr 100 150 361) ∧
      (4373/10000 : ℝ) + 1/20 < cagr 100 150 361 := by
  refine ⟨⟨[⟨"2016-01-04", 10⟩, ⟨"2016-12-30", 15⟩],
      100/10 * (1 - 0/10000), 100/10 * (1 - 0/10000) * 15,
      totalReturnPct 100 (100/10 * (1 - 0/10000) * 15), some 361, 0,
      "2016-01-04", "2016-12-30"⟩, rfl, ?_, ?_⟩
  · simp only [backtestCagr, Option.map_some']
    rw [show (100/10 * (1 - 0/10000) * 15 : ℚ) = 150 from by norm_num]
  · rw [cagr_stub_eval]
    have h := cagr_stub_lower
    linarith

/-- C6 amended: with STUB_DATA=true the request (TSLA, 100, 2016-01-04,
2016-12-30, fee 0) is answered against the stub series
[(2016-01-04, 10), (2016-12-30, 15)] and yields shares = 10,
final_value = 150, total_return_pct = 0.5, elapsed_days = 361 with the 1e-9
epsilon unused, and cagr = (3/2)^(1461/1444) − 1 ≈ 0.5072 (strictly between
0.5 and 0.52) — not ≈ 0.4373. -/
theorem stub_scenario_amended :
    ∃ resp, backtestRoute true [] (.ok [])
        ⟨"TSLA", 100, "2016-01-04", "2016-12-30", 0⟩ = (.ok resp, []) ∧
      resp.series = [⟨"2016-01-04", 10⟩, ⟨"2016-12-30", 15⟩] ∧
      resp.shares = 10 ∧ resp.final_value = 150 ∧
      resp.total_return_pct = 1/2 ∧ resp.elapsed_days = some 361 ∧
      max ((361 : ℝ) / 365.25) 1e-9 = (361 : ℝ) / 365.25 ∧
      backtestCagr ⟨"TSLA", 100, "2016-01-04", "2016-12-30", 0⟩ resp =
        some ((3/2 : ℝ) ^ ((1461 : ℝ) / 1444) - 1) ∧
      (1/2 : ℝ) < (3/2 : ℝ) ^ ((1461 : ℝ) / 1444) - 1 ∧
      (3/2 : ℝ) ^ ((1461 : ℝ) / 1444) - 1 < 13/25 := by
  refine ⟨⟨[⟨"2016-01-04", 10⟩, ⟨"2016-12-30", 15⟩],
      100/10 * (1 - 0/10000), 100/10 * (1 - 0/10000) * 15,
      totalReturnPct 100 (100/10 * (1 - 0/10000) * 15), some 361, 0,
      "2016-01-04", "2016-12-30"⟩, rfl, rfl, by norm_num, by norm_num,
    by norm_num [totalReturnPct], rfl, by norm_num, ?_,
    cagr_stub_lower, cagr_stub_upper⟩
  simp only [backtestCagr, Option.map_some']
  rw [show (100/10 * (1 - 0/10000) * 15 : ℚ) = 150 from by norm_num, cagr_stub_eval]

end WhatIf
